import Mathlib

/-!
Shallow embedding of the studylog repository's session-management logic
(`src/components/StudyLog.tsx`) and of the summary computation
(`src/components/SummaryPanel.tsx`).

Calendar dates (`entry_date`, a `YYYY-MM-DD` string in the source) are
embedded as day counts (`Nat`): the source's `addDays` adds calendar days
and `dateDiffDays` measures the day difference, so a date is represented by
its serial day number; `daysFromCivil` converts a concrete `Y-M-D` date to
this encoding.  The remote `study_sessions` / `app_subjects` tables are a
`DBState`; each remote call issued by the component is recorded in a trace
of `RemoteOp`s, and fallible writes (inserts, updates) are driven by
failure oracles (`failIns`, `failUpd`) so that the code's
log-and-continue error handling can be stated.
-/

namespace StudyLogSpec

/-- A row of the `study_sessions` table (interface `StudySession` in
`src/lib/supabase.ts`). -/
structure StudySession where
  id : Nat
  entry_date : Nat
  day_number : Nat
  subject : String
  hours : Rat
  topic : String
  created_at : Nat
  updated_at : Nat
deriving DecidableEq, Repr

/-- A row of the `app_subjects` table (interface `AppSubject` in
`src/lib/supabase.ts`). -/
structure AppSubject where
  id : Nat
  name : String
  created_at : Nat
deriving DecidableEq, Repr

/-- The sentinel subject marking a placeholder ("rest day") row
(`const REST_SUBJECT = '__REST__'` in `StudyLog.tsx`; the second revision
uses the string `'No Study'` with identical logic). -/
def REST_SUBJECT : String := "__REST__"

/-- State of the remote store: the two tables, a fresh-id counter for
server-generated row ids, and the current timestamp used for
`created_at` / `updated_at`. -/
structure DBState where
  rows : List StudySession
  subs : List AppSubject
  nextId : Nat
  now : Nat
deriving Repr

/-- A remote call issued by the component, as recorded in traces. -/
inductive RemoteOp where
  | selectSessions : RemoteOp
  | selectSubjects : RemoteOp
  | selectByDate : Nat → RemoteOp
  | selectById : Nat → RemoteOp
  | insertSession : Nat → Nat → String → Rat → String → RemoteOp
  | updateDayNumber : Nat → Nat → RemoteOp
  | updateFields : Nat → String → Rat → String → RemoteOp
  | deleteById : Nat → RemoteOp
deriving DecidableEq, Repr

/-- Serial day number of a Gregorian date (days since 0000-03-01, via the
standard civil-calendar formula); embeds `YYYY-MM-DD` strings as `Nat`s so
that consecutive calendar dates map to consecutive numbers. -/
def daysFromCivil (y m d : Nat) : Nat :=
  let yAdj := if m ≤ 2 then y - 1 else y
  let era := yAdj / 400
  let yoe := yAdj % 400
  let mp := if 2 < m then m - 3 else m + 9
  let doy := (153 * mp + 2) / 5 + (d - 1)
  let doe := yoe * 365 + yoe / 4 - yoe / 100 + doy
  era * 146097 + doe

/-- The source's `dateDiffDays` (difference in calendar days); under the
day-count encoding it is subtraction.  It is only applied with `a ≤ b`. -/
def dateDiffDays (a b : Nat) : Nat := b - a

/-- The source's `addDays` under the day-count encoding. -/
def addDays (a i : Nat) : Nat := a + i

/-- Ordering of session rows used by
`.order('entry_date', { ascending: true })`. -/
def byDate (a b : StudySession) : Prop := a.entry_date ≤ b.entry_date

instance : DecidableRel byDate := fun a b => inferInstanceAs (Decidable (a.entry_date ≤ b.entry_date))

instance : IsTotal StudySession byDate := ⟨fun a b => Nat.le_total a.entry_date b.entry_date⟩

instance : IsTrans StudySession byDate := ⟨fun _ _ _ h h2 => Nat.le_trans h h2⟩

/-- `supabase.from('study_sessions').select('*').order('entry_date', ascending)`:
all rows, sorted by `entry_date` ascending. -/
def fetchSessions (db : DBState) : List StudySession :=
  List.insertionSort byDate db.rows

/-- `earliest` in `loadData`: the entry date of the first fetched row. -/
def minEntryDate (db : DBState) : Nat :=
  (((fetchSessions db).head?).map (fun s => s.entry_date)).getD 0

/-- `latest` in `loadData`: the entry date of the last fetched row. -/
def maxEntryDate (db : DBState) : Nat :=
  (((fetchSessions db).getLast?).map (fun s => s.entry_date)).getD 0

/-- The loop `for (let i = 0; i <= dateDiffDays(earliest, latest); i++)`:
every date of the inclusive range. -/
def rangeDates (earliest latest : Nat) : List Nat :=
  (List.range (dateDiffDays earliest latest + 1)).map (addDays earliest)

/-- The `missingDates` collected by `loadData`: dates of the inclusive
range for which no fetched row exists. -/
def missingDates (db : DBState) : List Nat :=
  (rangeDates (minEntryDate db) (maxEntryDate db)).filter
    (fun d => !((fetchSessions db).any (fun s => s.entry_date == d)))

/-- An `insert` into `study_sessions`; the server assigns the id and the
timestamps. -/
def insertRow (db : DBState) (date day : Nat) (subject : String) (hours : Rat) (topic : String) : DBState :=
  { db with
    rows := db.rows ++ [{ id := db.nextId, entry_date := date, day_number := day,
                          subject := subject, hours := hours, topic := topic,
                          created_at := db.now, updated_at := db.now }],
    nextId := db.nextId + 1 }

/-- The placeholder-insertion loop of `loadData`: one insert per missing
date (`subject: REST_SUBJECT, hours: 0, topic: ''`, temporary
`day_number: 0`); a failed insert is logged and the loop continues. -/
def insertMissing (failIns : Nat → Bool) : DBState → List Nat → DBState × List RemoteOp
  | db, [] => (db, [])
  | db, d :: ds =>
    let db1 := if failIns d then db else insertRow db d 0 REST_SUBJECT 0 ""
    let rest := insertMissing failIns db1 ds
    (rest.1, RemoteOp.insertSession d 0 REST_SUBJECT 0 "" :: rest.2)

/-- `sortedDates` in `recalcDayNumbers`: the distinct entry dates of the
list, sorted ascending. -/
def distinctSortedDates (list : List StudySession) : List Nat :=
  List.insertionSort (· ≤ ·) ((list.map (fun s => s.entry_date)).dedup)

/-- The source's `recalcDayNumbers`: each session's `day_number` becomes
the index of its entry date in the sorted distinct-date list. -/
def recalcDayNumbers (list : List StudySession) : List StudySession :=
  if list.isEmpty then []
  else list.map (fun s => { s with day_number := (distinctSortedDates list).indexOf s.entry_date })

/-- `update({ day_number, updated_at }).eq('id', i)`. -/
def updateDayNumberDB (db : DBState) (i day : Nat) : DBState :=
  { db with rows := db.rows.map (fun r =>
      if r.id = i then { r with day_number := day, updated_at := db.now } else r) }

/-- The source's `syncDayNumbersToDB`: one `day_number` update per session
of the list; a failed update is logged and the loop continues. -/
def syncDayNumbersToDB (failUpd : Nat → Bool) : DBState → List StudySession → DBState × List RemoteOp
  | db, [] => (db, [])
  | db, s :: ss =>
    let db1 := if failUpd s.id then db else updateDayNumberDB db s.id s.day_number
    let rest := syncDayNumbersToDB failUpd db1 ss
    (rest.1, RemoteOp.updateDayNumber s.id s.day_number :: rest.2)

/-- Result of a mutation entry point: the store afterwards, the component's
`sessions` state, and the trace of remote calls issued. -/
structure LoadResult where
  db : DBState
  sessions : List StudySession
  ops : List RemoteOp
deriving Repr

/-- The source's `loadData`: fetch all sessions; if none, stop; otherwise
insert a placeholder row for every missing date of the inclusive
`[earliest, latest]` range (continuing past failed inserts), re-fetch,
recompute every `day_number` with `recalcDayNumbers`, and write the
recomputed numbers back with `syncDayNumbersToDB` (continuing past failed
updates). -/
def loadData (failIns failUpd : Nat → Bool) (db : DBState) : LoadResult :=
  let normalized := fetchSessions db
  if normalized.isEmpty then
    { db := db, sessions := [], ops := [RemoteOp.selectSessions, RemoteOp.selectSubjects] }
  else
    let ins := insertMissing failIns db (missingDates db)
    let refreshed := fetchSessions ins.1
    let final := recalcDayNumbers refreshed
    let synced := syncDayNumbersToDB failUpd ins.1 final
    { db := synced.1, sessions := final,
      ops := RemoteOp.selectSessions :: RemoteOp.selectSubjects ::
        (ins.2 ++ RemoteOp.selectSessions :: synced.2) }

/-- The source's `getNextDayNumberForAppend`: `0` on an empty session
state, otherwise the maximal known `day_number` plus one. -/
def getNextDayNumberForAppend (uiSessions : List StudySession) : Nat :=
  if uiSessions.isEmpty then 0
  else ((uiSessions.map (fun s => s.day_number)).foldr max 0) + 1

/-- `update({ subject, hours, topic, updated_at }).eq('id', i)`. -/
def updateSessionFields (db : DBState) (i : Nat) (subject : String) (hours : Rat) (topic : String) : DBState :=
  { db with rows := db.rows.map (fun r =>
      if r.id = i then { r with subject := subject, hours := hours, topic := topic, updated_at := db.now } else r) }

/-- `select('*').eq('entry_date', d)`. -/
def selectByDateRows (db : DBState) (d : Nat) : List StudySession :=
  db.rows.filter (fun r => r.entry_date == d)

/-- The source's `addSessionEntry`: reject an empty subject or non-positive
hours outright (alert only, no remote call); otherwise fetch the rows of
`selectedDate`; if none exist insert a fresh row, else convert the first
placeholder row in place, else insert an additional row; finally reload
everything through `loadData`. -/
def addSessionEntry (failIns failUpd : Nat → Bool) (db : DBState) (uiSessions : List StudySession)
    (selectedDate : Nat) (subject : String) (hours : Rat) (topic : String) : LoadResult :=
  if subject = "" ∨ hours ≤ 0 then
    { db := db, sessions := uiSessions, ops := [] }
  else
    match selectByDateRows db selectedDate with
    | [] =>
      let nextDay := getNextDayNumberForAppend uiSessions
      if failIns selectedDate then
        { db := db, sessions := uiSessions,
          ops := [RemoteOp.selectByDate selectedDate,
                  RemoteOp.insertSession selectedDate nextDay subject hours topic] }
      else
        let res := loadData failIns failUpd (insertRow db selectedDate nextDay subject hours topic)
        { res with ops := RemoteOp.selectByDate selectedDate ::
            RemoteOp.insertSession selectedDate nextDay subject hours topic :: res.ops }
    | r0 :: rest =>
      match (r0 :: rest).find? (fun r => r.subject == REST_SUBJECT) with
      | some restRow =>
        if failUpd restRow.id then
          { db := db, sessions := uiSessions,
            ops := [RemoteOp.selectByDate selectedDate,
                    RemoteOp.updateFields restRow.id subject hours topic] }
        else
          let res := loadData failIns failUpd (updateSessionFields db restRow.id subject hours topic)
          { res with ops := RemoteOp.selectByDate selectedDate ::
              RemoteOp.updateFields restRow.id subject hours topic :: res.ops }
      | none =>
        if failIns selectedDate then
          { db := db, sessions := uiSessions,
            ops := [RemoteOp.selectByDate selectedDate,
                    RemoteOp.insertSession selectedDate r0.day_number subject hours topic] }
        else
          let res := loadData failIns failUpd (insertRow db selectedDate r0.day_number subject hours topic)
          { res with ops := RemoteOp.selectByDate selectedDate ::
              RemoteOp.insertSession selectedDate r0.day_number subject hours topic :: res.ops }

/-- `delete().eq('id', id)` on `study_sessions`. -/
def deleteRowById (db : DBState) (i : Nat) : DBState :=
  { db with rows := db.rows.filter (fun r => !(r.id == i)) }

/-- The post-delete check of `deleteSession`: re-query the deleted row's
date; if a non-placeholder row remains do nothing; else insert one
placeholder row when the date has no rows at all, and otherwise leave the
remaining placeholder rows untouched. -/
def ensureRestAfterDelete (failIns : Nat → Bool) (db1 : DBState) (date : Nat) : DBState :=
  let remaining := selectByDateRows db1 date
  let hasNonRest := remaining.any (fun r => !(r.subject == REST_SUBJECT))
  if hasNonRest then db1
  else if remaining.isEmpty then
    (if failIns date then db1 else insertRow db1 date 0 REST_SUBJECT 0 "")
  else db1

/-- The source's `deleteSession`: look the row up by id, delete it, run
the post-delete placeholder check for its date, and finally reload
through `loadData`. -/
def deleteSession (failIns failUpd : Nat → Bool) (db : DBState) (uiSessions : List StudySession) (i : Nat) : LoadResult :=
  match db.rows.find? (fun r => r.id == i) with
  | none => { db := db, sessions := uiSessions, ops := [RemoteOp.selectById i] }
  | some found =>
    let date := found.entry_date
    let db2 := ensureRestAfterDelete failIns (deleteRowById db i) date
    let res := loadData failIns failUpd db2
    { res with ops := RemoteOp.selectById i :: RemoteOp.deleteById i ::
        RemoteOp.selectByDate date :: res.ops }

/-- One step of the `sessions.forEach` loop in `calculateSubjectTotals`
(`SummaryPanel.tsx`): `if (totals.hasOwnProperty(session.subject))
totals[session.subject] += session.hours`. -/
def addToTotals (acc : List (String × Rat)) (s : StudySession) : List (String × Rat) :=
  if acc.any (fun p => p.1 == s.subject) then
    acc.map (fun p => if p.1 == s.subject then (p.1, p.2 + s.hours) else p)
  else acc

/-- One step of the `subjects.forEach((subject) => { totals[subject.name] = 0 })`
loop: `totals` is a JavaScript object keyed by subject name, keys in
first-insertion order, so assigning an existing key resets it to `0` in
place and a new key is appended. -/
def initStep (acc : List (String × Rat)) (sub : AppSubject) : List (String × Rat) :=
  if acc.any (fun p => p.1 == sub.name) then
    acc.map (fun p => if p.1 == sub.name then (p.1, 0) else p)
  else acc ++ [(sub.name, 0)]

/-- The initial `totals` object: one zero entry per managed subject name. -/
def initTotals (subjects : List AppSubject) : List (String × Rat) :=
  subjects.foldl initStep []

/-- The source's `calculateSubjectTotals` (`SummaryPanel.tsx`): per-name
totals over the managed subject list. -/
def calculateSubjectTotals (subjects : List AppSubject) (sessions : List StudySession) : List (String × Rat) :=
  sessions.foldl addToTotals (initTotals subjects)

/-- `grandTotal = Object.values(totals).reduce((sum, val) => sum + val, 0)`. -/
def grandTotal (subjects : List AppSubject) (sessions : List StudySession) : Rat :=
  ((calculateSubjectTotals subjects sessions).map (fun p => p.2)).sum

/-- Failure oracle of an always-successful store. -/
def noFail : Nat → Bool := fun _ => false

/-- Agreement of two session rows on every column except `day_number` and
`updated_at` (the columns rewritten by the day-number resync). -/
def sameCore (r r2 : StudySession) : Prop :=
  r2.id = r.id ∧ r2.entry_date = r.entry_date ∧ r2.subject = r.subject ∧
  r2.hours = r.hours ∧ r2.topic = r.topic ∧ r2.created_at = r.created_at

/-! ### Basic facts about the fetch ordering -/

theorem fetchSessions_perm (db : DBState) : (fetchSessions db).Perm db.rows :=
  List.perm_insertionSort byDate db.rows

theorem fetchSessions_sorted (db : DBState) : List.Sorted byDate (fetchSessions db) :=
  List.sorted_insertionSort byDate db.rows

theorem fetchSessions_eq_nil_iff (db : DBState) : fetchSessions db = [] ↔ db.rows = [] := by
  constructor
  · intro h
    have := (fetchSessions_perm db).length_eq
    rw [h] at this
    exact List.length_eq_zero.mp this.symm
  · intro h
    have := (fetchSessions_perm db).length_eq
    rw [h] at this
    exact List.length_eq_zero.mp this

theorem head_date_le_of_sorted {s : List StudySession} (hs : List.Sorted byDate s)
    {x : StudySession} (hx : x ∈ s) :
    ((s.head?).map (fun r => r.entry_date)).getD 0 ≤ x.entry_date := by
  cases s with
  | nil => cases hx
  | cons a t =>
    show a.entry_date ≤ x.entry_date
    rcases List.mem_cons.mp hx with h | h
    · rw [h]
    · exact (List.sorted_cons.mp hs).1 x h

theorem le_getLast_date_of_sorted {s : List StudySession} (hs : List.Sorted byDate s)
    {x : StudySession} (hx : x ∈ s) :
    x.entry_date ≤ ((s.getLast?).map (fun r => r.entry_date)).getD 0 := by
  induction s with
  | nil => cases hx
  | cons a t ih =>
    cases t with
    | nil =>
      rcases List.mem_cons.mp hx with h | h
      · rw [h]; exact Nat.le_refl _
      · cases h
    | cons b u =>
      have hs2 : List.Sorted byDate (b :: u) := (List.sorted_cons.mp hs).2
      rw [List.getLast?_cons_cons]
      rcases List.mem_cons.mp hx with h | h
      · subst h
        rcases hy : (b :: u).getLast? with _ | y
        · exact absurd (List.getLast?_eq_none_iff.mp hy) (by simp)
        · have hmem : y ∈ b :: u := List.mem_of_mem_getLast? hy
          have h1 : byDate x y := (List.sorted_cons.mp hs).1 y hmem
          simpa using h1
      · exact ih hs2 h

theorem minEntryDate_le (db : DBState) {r : StudySession} (hr : r ∈ db.rows) :
    minEntryDate db ≤ r.entry_date :=
  head_date_le_of_sorted (fetchSessions_sorted db) ((fetchSessions_perm db).mem_iff.mpr hr)

theorem le_maxEntryDate (db : DBState) {r : StudySession} (hr : r ∈ db.rows) :
    r.entry_date ≤ maxEntryDate db :=
  le_getLast_date_of_sorted (fetchSessions_sorted db) ((fetchSessions_perm db).mem_iff.mpr hr)

theorem minEntryDate_mem (db : DBState) (h : db.rows ≠ []) :
    ∃ r ∈ db.rows, r.entry_date = minEntryDate db := by
  have hf : fetchSessions db ≠ [] := fun hc => h (fetchSessions_eq_nil_iff db |>.mp hc)
  cases hfs : fetchSessions db with
  | nil => exact absurd hfs hf
  | cons a t =>
    refine ⟨a, ?_, ?_⟩
    · exact (fetchSessions_perm db).mem_iff.mp (by rw [hfs]; exact List.mem_cons_self a t)
    · unfold minEntryDate
      rw [hfs]
      rfl

theorem maxEntryDate_mem (db : DBState) (h : db.rows ≠ []) :
    ∃ r ∈ db.rows, r.entry_date = maxEntryDate db := by
  have hf : fetchSessions db ≠ [] := fun hc => h (fetchSessions_eq_nil_iff db |>.mp hc)
  rcases hy : (fetchSessions db).getLast? with _ | y
  · exact absurd (List.getLast?_eq_none_iff.mp hy) hf
  · refine ⟨y, (fetchSessions_perm db).mem_iff.mp (List.mem_of_mem_getLast? hy), ?_⟩
    unfold maxEntryDate
    rw [hy]
    rfl

/-! ### The missing-date computation -/

theorem mem_rangeDates {a b d : Nat} (h1 : a ≤ d) (h2 : d ≤ b) : d ∈ rangeDates a b := by
  refine List.mem_map.mpr ⟨d - a, List.mem_range.mpr ?_, ?_⟩
  · unfold dateDiffDays; omega
  · unfold addDays; omega

theorem mem_missingDates {db : DBState} {d : Nat} :
    d ∈ missingDates db ↔
      d ∈ rangeDates (minEntryDate db) (maxEntryDate db) ∧ ∀ r ∈ db.rows, r.entry_date ≠ d := by
  unfold missingDates
  rw [List.mem_filter]
  constructor
  · rintro ⟨h1, h2⟩
    refine ⟨h1, fun r hr hc => ?_⟩
    have hmem : r ∈ fetchSessions db := (fetchSessions_perm db).mem_iff.mpr hr
    have : (fetchSessions db).any (fun s => s.entry_date == d) = true :=
      List.any_eq_true.mpr ⟨r, hmem, by simp [hc]⟩
    simp [this] at h2
  · rintro ⟨h1, h2⟩
    refine ⟨h1, ?_⟩
    have : (fetchSessions db).any (fun s => s.entry_date == d) = false := by
      rw [Bool.eq_false_iff]
      intro hc
      obtain ⟨r, hr, hrd⟩ := List.any_eq_true.mp hc
      exact h2 r ((fetchSessions_perm db).mem_iff.mp hr) (by simpa using hrd)
    simp [this]

/-! ### The placeholder-insertion loop -/

theorem insertMissing_rows_subset (f : Nat → Bool) (db : DBState) (ds : List Nat) :
    ∀ r ∈ db.rows, r ∈ (insertMissing f db ds).1.rows := by
  induction ds generalizing db with
  | nil => intro r hr; exact hr
  | cons d ds ih =>
    intro r hr
    show r ∈ (insertMissing f (if f d then db else insertRow db d 0 REST_SUBJECT 0 "") ds).1.rows
    apply ih
    by_cases hf : f d
    · simpa [hf] using hr
    · simp only [hf, if_false, insertRow]
      exact List.mem_append_left _ hr

theorem insertMissing_mem_placeholder (f : Nat → Bool) (db : DBState) (ds : List Nat) :
    ∀ d ∈ ds, f d = false →
      ∃ r ∈ (insertMissing f db ds).1.rows,
        r.entry_date = d ∧ r.subject = REST_SUBJECT ∧ r.hours = 0 ∧ r.topic = "" := by
  induction ds generalizing db with
  | nil => intro d hd; cases hd
  | cons d0 ds ih =>
    intro d hd hf
    rcases List.mem_cons.mp hd with h | h
    · subst h
      refine ⟨{ id := db.nextId, entry_date := d, day_number := 0, subject := REST_SUBJECT,
                hours := 0, topic := "", created_at := db.now, updated_at := db.now }, ?_, rfl, rfl, rfl, rfl⟩
      show _ ∈ (insertMissing f (if f d then db else insertRow db d 0 REST_SUBJECT 0 "") ds).1.rows
      apply insertMissing_rows_subset
      simp [hf, insertRow]
    · exact ih _ d h hf

theorem insertMissing_rows_all (f : Nat → Bool) (db : DBState) (ds : List Nat) :
    ∀ r ∈ (insertMissing f db ds).1.rows,
      r ∈ db.rows ∨ (r.subject = REST_SUBJECT ∧ r.hours = 0 ∧ r.topic = "" ∧ r.entry_date ∈ ds) := by
  induction ds generalizing db with
  | nil => intro r hr; exact Or.inl hr
  | cons d ds ih =>
    intro r hr
    have hr2 : r ∈ (insertMissing f (if f d then db else insertRow db d 0 REST_SUBJECT 0 "") ds).1.rows := hr
    rcases ih _ r hr2 with h | h
    · by_cases hf : f d
      · rw [hf] at h; exact Or.inl (by simpa using h)
      · rw [if_neg (by simp [hf])] at h
        have h2 : r ∈ db.rows ++ [(⟨db.nextId, d, 0, REST_SUBJECT, 0, "", db.now, db.now⟩ : StudySession)] := h
        rcases List.mem_append.mp h2 with h3 | h3
        · exact Or.inl h3
        · have h4 := List.mem_singleton.mp h3
          subst h4
          exact Or.inr ⟨rfl, rfl, rfl, List.mem_cons_self _ _⟩
    · exact Or.inr ⟨h.1, h.2.1, h.2.2.1, List.mem_cons_of_mem _ h.2.2.2⟩

theorem insertMissing_ops (f : Nat → Bool) (db : DBState) (ds : List Nat) :
    (insertMissing f db ds).2 = ds.map (fun d => RemoteOp.insertSession d 0 REST_SUBJECT 0 "") := by
  induction ds generalizing db with
  | nil => rfl
  | cons d ds ih =>
    show RemoteOp.insertSession d 0 REST_SUBJECT 0 "" ::
        (insertMissing f (if f d then db else insertRow db d 0 REST_SUBJECT 0 "") ds).2 = _
    rw [ih]
    rfl

theorem insertRow_countP (db : DBState) (date day : Nat) (subject : String) (hours : Rat)
    (topic : String) (p : StudySession → Bool) :
    ((insertRow db date day subject hours topic).rows.countP p) =
      db.rows.countP p +
        (if p ⟨db.nextId, date, day, subject, hours, topic, db.now, db.now⟩ then 1 else 0) := by
  unfold insertRow
  simp [List.countP_append, List.countP_cons]

theorem insertMissing_countP_date (f : Nat → Bool) (db : DBState) (ds : List Nat) (d0 : Nat)
    (h : ∀ d ∈ ds, d ≠ d0) :
    ((insertMissing f db ds).1.rows.countP (fun r => r.entry_date == d0)) =
      db.rows.countP (fun r => r.entry_date == d0) := by
  induction ds generalizing db with
  | nil => rfl
  | cons d ds ih =>
    have hstep : (insertMissing f db (d :: ds)).1 =
        (insertMissing f (if f d then db else insertRow db d 0 REST_SUBJECT 0 "") ds).1 := rfl
    rw [hstep, ih _ (fun e he => h e (List.mem_cons_of_mem _ he))]
    by_cases hf : f d
    · simp [hf]
    · rw [if_neg (by simp [hf]), insertRow_countP]
      have hd : d ≠ d0 := h d (List.mem_cons_self _ _)
      simp [hd]

/-! ### The day-number resync loop -/

theorem updateDayNumberDB_rows_map (db : DBState) (i day : Nat) :
    (updateDayNumberDB db i day).rows = db.rows.map (fun r =>
      if r.id = i then { r with day_number := day, updated_at := db.now } else r) := rfl

theorem sameCore_update (db : DBState) (i day : Nat) (r : StudySession) :
    sameCore r (if r.id = i then { r with day_number := day, updated_at := db.now } else r) := by
  by_cases h : r.id = i <;> simp [h, sameCore]

theorem sync_rows_core (f : Nat → Bool) (l : List StudySession) (db : DBState) :
    ∀ r ∈ db.rows, ∃ r2 ∈ (syncDayNumbersToDB f db l).1.rows, sameCore r r2 := by
  induction l generalizing db with
  | nil => intro r hr; exact ⟨r, hr, rfl, rfl, rfl, rfl, rfl, rfl⟩
  | cons s ss ih =>
    intro r hr
    show ∃ r2 ∈ (syncDayNumbersToDB f
        (if f s.id then db else updateDayNumberDB db s.id s.day_number) ss).1.rows, sameCore r r2
    by_cases hf : f s.id
    · rw [if_pos hf]
      exact ih db r hr
    · rw [if_neg hf]
      obtain ⟨r2, hr2, hcore⟩ := ih (updateDayNumberDB db s.id s.day_number)
        (if r.id = s.id then { r with day_number := s.day_number, updated_at := db.now } else r)
        (by rw [updateDayNumberDB_rows_map]; exact List.mem_map_of_mem _ hr)
      refine ⟨r2, hr2, ?_⟩
      have h1 := sameCore_update db s.id s.day_number r
      exact ⟨hcore.1.trans h1.1, hcore.2.1.trans h1.2.1, hcore.2.2.1.trans h1.2.2.1,
        hcore.2.2.2.1.trans h1.2.2.2.1, hcore.2.2.2.2.1.trans h1.2.2.2.2.1,
        hcore.2.2.2.2.2.trans h1.2.2.2.2.2⟩

theorem sync_rows_core_rev (f : Nat → Bool) (l : List StudySession) (db : DBState) :
    ∀ r2 ∈ (syncDayNumbersToDB f db l).1.rows, ∃ r ∈ db.rows, sameCore r r2 := by
  induction l generalizing db with
  | nil => intro r hr; exact ⟨r, hr, rfl, rfl, rfl, rfl, rfl, rfl⟩
  | cons s ss ih =>
    intro r2 hr2
    have hr2s : r2 ∈ (syncDayNumbersToDB f
        (if f s.id then db else updateDayNumberDB db s.id s.day_number) ss).1.rows := hr2
    by_cases hf : f s.id
    · rw [if_pos hf] at hr2s
      exact ih db r2 hr2s
    · rw [if_neg hf] at hr2s
      obtain ⟨r1, hr1, hcore⟩ := ih _ r2 hr2s
      rw [updateDayNumberDB_rows_map] at hr1
      obtain ⟨r0, hr0, hr0eq⟩ := List.mem_map.mp hr1
      refine ⟨r0, hr0, ?_⟩
      have h1 := sameCore_update db s.id s.day_number r0
      rw [hr0eq] at h1
      exact ⟨hcore.1.trans h1.1, hcore.2.1.trans h1.2.1, hcore.2.2.1.trans h1.2.2.1,
        hcore.2.2.2.1.trans h1.2.2.2.1, hcore.2.2.2.2.1.trans h1.2.2.2.2.1,
        hcore.2.2.2.2.2.trans h1.2.2.2.2.2⟩

theorem sync_countP_date (f : Nat → Bool) (l : List StudySession) (db : DBState) (d0 : Nat) :
    ((syncDayNumbersToDB f db l).1.rows.countP (fun r => r.entry_date == d0)) =
      db.rows.countP (fun r => r.entry_date == d0) := by
  induction l generalizing db with
  | nil => rfl
  | cons s ss ih =>
    show ((syncDayNumbersToDB f
        (if f s.id then db else updateDayNumberDB db s.id s.day_number) ss).1.rows.countP _) = _
    by_cases hf : f s.id
    · rw [if_pos hf, ih]
    · rw [if_neg hf, ih, updateDayNumberDB_rows_map, List.countP_map]
      apply List.countP_congr
      intro r _
      by_cases h : r.id = s.id <;> simp [h]

theorem sync_ops (f : Nat → Bool) (l : List StudySession) (db : DBState) :
    (syncDayNumbersToDB f db l).2 = l.map (fun s => RemoteOp.updateDayNumber s.id s.day_number) := by
  induction l generalizing db with
  | nil => rfl
  | cons s ss ih =>
    show RemoteOp.updateDayNumber s.id s.day_number ::
        (syncDayNumbersToDB f (if f s.id then db else updateDayNumberDB db s.id s.day_number) ss).2 = _
    rw [ih]
    rfl

theorem sync_id_invariant (f : Nat → Bool) (l : List StudySession) (db : DBState) (i v : Nat)
    (hl : ∀ s ∈ l, s.id ≠ i)
    (hdb : ∀ r ∈ db.rows, r.id = i → r.day_number = v) :
    ∀ r ∈ (syncDayNumbersToDB f db l).1.rows, r.id = i → r.day_number = v := by
  induction l generalizing db with
  | nil => exact hdb
  | cons s ss ih =>
    intro r hr hri
    have hr2 : r ∈ (syncDayNumbersToDB f
        (if f s.id then db else updateDayNumberDB db s.id s.day_number) ss).1.rows := hr
    by_cases hf : f s.id
    · rw [if_pos hf] at hr2
      exact ih db (fun t ht => hl t (List.mem_cons_of_mem _ ht)) hdb r hr2 hri
    · rw [if_neg hf] at hr2
      refine ih _ (fun t ht => hl t (List.mem_cons_of_mem _ ht)) ?_ r hr2 hri
      intro r0 hr0 hr0i
      rw [updateDayNumberDB_rows_map] at hr0
      obtain ⟨r1, hr1, hr1eq⟩ := List.mem_map.mp hr0
      by_cases h : r1.id = s.id
      · exfalso
        rw [if_pos h] at hr1eq
        have : r0.id = s.id := by rw [← hr1eq]; exact h
        exact hl s (List.mem_cons_self _ _) (this ▸ hr0i)
      · rw [if_neg h] at hr1eq
        subst hr1eq
        exact hdb r1 hr1 hr0i

theorem sync_writes_back (l : List StudySession) (db : DBState)
    (hnd : (l.map (fun s => s.id)).Nodup) :
    ∀ s ∈ l, ∀ r ∈ (syncDayNumbersToDB noFail db l).1.rows, r.id = s.id →
      r.day_number = s.day_number := by
  induction l generalizing db with
  | nil => intro s hs; cases hs
  | cons s0 ss ih =>
    intro s hs r hr hri
    obtain ⟨h1, h2⟩ := List.nodup_cons.mp (by rw [List.map_cons] at hnd; exact hnd)
    have hr2 : r ∈ (syncDayNumbersToDB noFail
        (updateDayNumberDB db s0.id s0.day_number) ss).1.rows := by
      have : (if noFail s0.id then db else updateDayNumberDB db s0.id s0.day_number) =
          updateDayNumberDB db s0.id s0.day_number := by rfl
      rw [← this]
      exact hr
    rcases List.mem_cons.mp hs with h | h
    · subst h
      refine sync_id_invariant noFail ss _ s.id s.day_number ?_ ?_ r hr2 hri
      · intro t ht hc
        exact h1 (by rw [← hc]; exact List.mem_map_of_mem _ ht)
      · intro r0 hr0 hr0i
        rw [updateDayNumberDB_rows_map] at hr0
        obtain ⟨r1, hr1, hr1eq⟩ := List.mem_map.mp hr0
        by_cases h : r1.id = s.id
        · rw [if_pos h] at hr1eq
          rw [← hr1eq]
        · rw [if_neg h] at hr1eq
          subst hr1eq
          exact absurd hr0i h
    · exact ih _ h2 s h r hr2 hri

/-! ### Unfolding and aggregate facts about `loadData` -/

theorem fetchSessions_not_isEmpty (db : DBState) (h : db.rows ≠ []) :
    ¬ ((fetchSessions db).isEmpty = true) := fun hc =>
  h ((fetchSessions_eq_nil_iff db).mp (List.isEmpty_iff.mp hc))

theorem loadData_db_of_ne (fi fu : Nat → Bool) (db : DBState) (h : db.rows ≠ []) :
    (loadData fi fu db).db =
      (syncDayNumbersToDB fu (insertMissing fi db (missingDates db)).1
        (recalcDayNumbers (fetchSessions (insertMissing fi db (missingDates db)).1))).1 := by
  simp only [loadData]
  rw [if_neg (fetchSessions_not_isEmpty db h)]

theorem loadData_sessions_of_ne (fi fu : Nat → Bool) (db : DBState) (h : db.rows ≠ []) :
    (loadData fi fu db).sessions =
      recalcDayNumbers (fetchSessions (insertMissing fi db (missingDates db)).1) := by
  simp only [loadData]
  rw [if_neg (fetchSessions_not_isEmpty db h)]

theorem loadData_ops_of_ne (fi fu : Nat → Bool) (db : DBState) (h : db.rows ≠ []) :
    (loadData fi fu db).ops =
      RemoteOp.selectSessions :: RemoteOp.selectSubjects ::
        ((insertMissing fi db (missingDates db)).2 ++ RemoteOp.selectSessions ::
          (syncDayNumbersToDB fu (insertMissing fi db (missingDates db)).1
            (recalcDayNumbers (fetchSessions (insertMissing fi db (missingDates db)).1))).2) := by
  simp only [loadData]
  rw [if_neg (fetchSessions_not_isEmpty db h)]

theorem loadData_of_nil (fi fu : Nat → Bool) (db : DBState) (h : db.rows = []) :
    loadData fi fu db =
      { db := db, sessions := [], ops := [RemoteOp.selectSessions, RemoteOp.selectSubjects] } := by
  simp only [loadData]
  rw [if_pos (by rw [List.isEmpty_iff]; exact (fetchSessions_eq_nil_iff db).mpr h)]

theorem loadData_rows_sub (fi fu : Nat → Bool) (db : DBState) :
    ∀ r0 ∈ db.rows, ∃ r ∈ (loadData fi fu db).db.rows, sameCore r0 r := by
  intro r0 hr0
  by_cases h : db.rows = []
  · rw [h] at hr0; cases hr0
  · rw [loadData_db_of_ne fi fu db h]
    exact sync_rows_core fu _ _ r0 (insertMissing_rows_subset fi db (missingDates db) r0 hr0)

theorem loadData_rows_all (fi fu : Nat → Bool) (db : DBState) :
    ∀ r ∈ (loadData fi fu db).db.rows,
      (∃ r0 ∈ db.rows, sameCore r0 r) ∨
        (r.subject = REST_SUBJECT ∧ r.hours = 0 ∧ r.topic = "") := by
  intro r hr
  by_cases h : db.rows = []
  · rw [loadData_of_nil fi fu db h] at hr
    exact Or.inl ⟨r, hr, rfl, rfl, rfl, rfl, rfl, rfl⟩
  · rw [loadData_db_of_ne fi fu db h] at hr
    obtain ⟨r1, hr1, hcore⟩ := sync_rows_core_rev fu _ _ r hr
    rcases insertMissing_rows_all fi db (missingDates db) r1 hr1 with h2 | h2
    · exact Or.inl ⟨r1, h2, hcore⟩
    · exact Or.inr ⟨hcore.2.2.1.trans h2.1, hcore.2.2.2.1.trans h2.2.1,
        hcore.2.2.2.2.1.trans h2.2.2.1⟩

theorem exists_of_countP_ne_zero {l : List StudySession} {p : StudySession → Bool}
    (h : l.countP p ≠ 0) : ∃ r ∈ l, p r = true := by
  by_contra hc
  push_neg at hc
  exact h (List.countP_eq_zero.mpr (fun a ha hpa => hc a ha hpa))

theorem loadData_countP_date (fi fu : Nat → Bool) (db : DBState) (d0 : Nat)
    (h : db.rows.countP (fun r => r.entry_date == d0) ≠ 0) :
    (loadData fi fu db).db.rows.countP (fun r => r.entry_date == d0) =
      db.rows.countP (fun r => r.entry_date == d0) := by
  have hne : db.rows ≠ [] := by
    intro hc
    rw [hc] at h
    exact h rfl
  rw [loadData_db_of_ne fi fu db hne, sync_countP_date, insertMissing_countP_date]
  intro d hd hc
  subst hc
  obtain ⟨r, hr, hrd⟩ := exists_of_countP_ne_zero h
  exact (mem_missingDates.mp hd).2 r hr (by simpa using hrd)

/-- C1: on a non-empty store with all writes succeeding, `minEntryDate` and
`maxEntryDate` are the minimum and maximum entry dates present, after a
completed `loadData` every calendar date of the inclusive range has at
least one session row, and every such date that lacked a row got a
placeholder row with the sentinel subject, zero hours and empty topic. -/
theorem loadData_fills_date_range (db : DBState) (hne : db.rows ≠ []) :
    (∀ r ∈ db.rows, minEntryDate db ≤ r.entry_date ∧ r.entry_date ≤ maxEntryDate db) ∧
    (∃ r ∈ db.rows, r.entry_date = minEntryDate db) ∧
    (∃ r ∈ db.rows, r.entry_date = maxEntryDate db) ∧
    (∀ d, minEntryDate db ≤ d → d ≤ maxEntryDate db →
      ∃ r ∈ (loadData noFail noFail db).db.rows, r.entry_date = d) ∧
    (∀ d, minEntryDate db ≤ d → d ≤ maxEntryDate db → (∀ r ∈ db.rows, r.entry_date ≠ d) →
      ∃ r ∈ (loadData noFail noFail db).db.rows,
        r.entry_date = d ∧ r.subject = REST_SUBJECT ∧ r.hours = 0 ∧ r.topic = "") := by
  have hfill : ∀ d, minEntryDate db ≤ d → d ≤ maxEntryDate db →
      (∀ r ∈ db.rows, r.entry_date ≠ d) →
      ∃ r ∈ (loadData noFail noFail db).db.rows,
        r.entry_date = d ∧ r.subject = REST_SUBJECT ∧ r.hours = 0 ∧ r.topic = "" := by
    intro d h1 h2 h3
    have hmiss : d ∈ missingDates db := mem_missingDates.mpr ⟨mem_rangeDates h1 h2, h3⟩
    obtain ⟨r1, hr1, hd1, hs1, hh1, ht1⟩ :=
      insertMissing_mem_placeholder noFail db (missingDates db) d hmiss rfl
    rw [loadData_db_of_ne noFail noFail db hne]
    obtain ⟨r2, hr2, hcore⟩ := sync_rows_core noFail _ _ r1 hr1
    exact ⟨r2, hr2, hcore.2.1.trans hd1, hcore.2.2.1.trans hs1,
      hcore.2.2.2.1.trans hh1, hcore.2.2.2.2.1.trans ht1⟩
  refine ⟨fun r hr => ⟨minEntryDate_le db hr, le_maxEntryDate db hr⟩,
    minEntryDate_mem db hne, maxEntryDate_mem db hne, ?_, hfill⟩
  intro d h1 h2
  by_cases hrow : ∃ r ∈ db.rows, r.entry_date = d
  · obtain ⟨r0, hr0, hr0d⟩ := hrow
    obtain ⟨r, hr, hcore⟩ := loadData_rows_sub noFail noFail db r0 hr0
    exact ⟨r, hr, hcore.2.1.trans hr0d⟩
  · obtain ⟨r, hr, hrd, _⟩ := hfill d h1 h2 (fun r hrm hc => hrow ⟨r, hrm, hc⟩)
    exact ⟨r, hr, hrd⟩

/-! ### Facts about the day-number recomputation -/

theorem recalcDayNumbers_eq_map (l : List StudySession) :
    recalcDayNumbers l = l.map (fun s =>
      { s with day_number := (distinctSortedDates l).indexOf s.entry_date }) := by
  cases l with
  | nil => rfl
  | cons a t => rfl

theorem distinctSortedDates_perm (l : List StudySession) :
    (distinctSortedDates l).Perm ((l.map (fun s => s.entry_date)).dedup) :=
  List.perm_insertionSort _ _

theorem distinctSortedDates_sorted (l : List StudySession) :
    List.Sorted (· ≤ ·) (distinctSortedDates l) :=
  List.sorted_insertionSort _ _

theorem distinctSortedDates_nodup (l : List StudySession) : (distinctSortedDates l).Nodup :=
  (distinctSortedDates_perm l).nodup_iff.mpr (List.nodup_dedup _)

theorem mem_distinctSortedDates {l : List StudySession} {d : Nat} :
    d ∈ distinctSortedDates l ↔ d ∈ l.map (fun s => s.entry_date) := by
  rw [(distinctSortedDates_perm l).mem_iff, List.mem_dedup]

theorem indexOf_eq_countP_lt {l : List Nat} (hs : List.Sorted (· ≤ ·) l) (hnd : l.Nodup)
    {d : Nat} (hd : d ∈ l) :
    l.indexOf d = l.countP (fun e => e < d) := by
  induction l with
  | nil => cases hd
  | cons a t ih =>
    obtain ⟨ha, hs2⟩ := List.sorted_cons.mp hs
    obtain ⟨hna, hnd2⟩ := List.nodup_cons.mp hnd
    rcases List.mem_cons.mp hd with h | h
    · subst h
      rw [List.indexOf_cons_self, List.countP_cons]
      have h0 : t.countP (fun e => decide (e < d)) = 0 :=
        List.countP_eq_zero.mpr (fun e he => by simpa using Nat.not_lt.mpr (ha e he))
      simp [h0]
    · have had : a ≠ d := fun hc => hna (hc ▸ h)
      rw [List.indexOf_cons_ne t had, List.countP_cons, ih hs2 hnd2 h]
      have halt : a < d := Nat.lt_of_le_of_ne (ha d h) had
      simp [halt, Nat.succ_eq_add_one]

theorem recalc_rank (l : List StudySession) :
    ∀ s ∈ recalcDayNumbers l,
      s.day_number = ((l.map (fun r => r.entry_date)).dedup).countP (fun e => e < s.entry_date) ∧
      s.day_number < (l.map (fun r => r.entry_date)).dedup.length := by
  intro s hs
  rw [recalcDayNumbers_eq_map] at hs
  obtain ⟨s0, hs0, rfl⟩ := List.mem_map.mp hs
  have hd : s0.entry_date ∈ distinctSortedDates l :=
    mem_distinctSortedDates.mpr (List.mem_map_of_mem _ hs0)
  constructor
  · show (distinctSortedDates l).indexOf s0.entry_date = _
    rw [indexOf_eq_countP_lt (distinctSortedDates_sorted l) (distinctSortedDates_nodup l) hd]
    exact (distinctSortedDates_perm l).countP_eq _
  · show (distinctSortedDates l).indexOf s0.entry_date < _
    rw [← (distinctSortedDates_perm l).length_eq]
    exact List.indexOf_lt_length.mpr hd

theorem recalc_surj (l : List StudySession) :
    ∀ j, j < (l.map (fun r => r.entry_date)).dedup.length →
      ∃ s ∈ recalcDayNumbers l, s.day_number = j := by
  intro j hj
  have hj2 : j < (distinctSortedDates l).length := by
    rw [(distinctSortedDates_perm l).length_eq]
    exact hj
  set d := (distinctSortedDates l).get ⟨j, hj2⟩ with hd
  have hdm : d ∈ distinctSortedDates l := List.get_mem _ _ hj2
  obtain ⟨s0, hs0, hs0d⟩ := List.mem_map.mp (mem_distinctSortedDates.mp hdm)
  refine ⟨{ s0 with day_number := (distinctSortedDates l).indexOf s0.entry_date }, ?_, ?_⟩
  · rw [recalcDayNumbers_eq_map]
    exact List.mem_map_of_mem _ hs0
  · show (distinctSortedDates l).indexOf s0.entry_date = j
    rw [hs0d, hd]
    exact List.get_indexOf (distinctSortedDates_nodup l) ⟨j, hj2⟩

/-- C2: every session's recomputed day number is the zero-based rank of its
entry date among the distinct dates sorted ascending (the number of
distinct dates strictly before it), the assigned numbers are exactly
`0, ..., numberOfDistinctDates - 1`, and with all updates succeeding the
resync loop writes each recomputed number back to the row with that id. -/
theorem recalcDayNumbers_rank_and_writeback (l : List StudySession) (db : DBState) :
    (∀ s ∈ recalcDayNumbers l,
      s.day_number = ((l.map (fun r => r.entry_date)).dedup).countP (fun e => e < s.entry_date) ∧
      s.day_number < (l.map (fun r => r.entry_date)).dedup.length) ∧
    (∀ j, j < (l.map (fun r => r.entry_date)).dedup.length →
      ∃ s ∈ recalcDayNumbers l, s.day_number = j) ∧
    (((recalcDayNumbers l).map (fun s => s.id)).Nodup →
      ∀ s ∈ recalcDayNumbers l,
        ∀ r ∈ (syncDayNumbersToDB noFail db (recalcDayNumbers l)).1.rows,
          r.id = s.id → r.day_number = s.day_number) :=
  ⟨recalc_rank l, recalc_surj l, fun hnd => sync_writes_back (recalcDayNumbers l) db hnd⟩

/-- C8: `recalcDayNumbers` is a frame-preserving map: the empty list maps
to the empty list, length and order are preserved, every column except
`day_number` of every row is unchanged, and rows sharing an entry date
receive equal day numbers. -/
theorem recalcDayNumbers_frame (l : List StudySession) :
    recalcDayNumbers ([] : List StudySession) = [] ∧
    (recalcDayNumbers l).length = l.length ∧
    (∀ i : Nat, ((recalcDayNumbers l)[i]?).map (fun s =>
        (s.id, s.entry_date, s.subject, s.hours, s.topic, s.created_at, s.updated_at)) =
      (l[i]?).map (fun s =>
        (s.id, s.entry_date, s.subject, s.hours, s.topic, s.created_at, s.updated_at))) ∧
    (∀ s ∈ recalcDayNumbers l, ∀ t ∈ recalcDayNumbers l,
      s.entry_date = t.entry_date → s.day_number = t.day_number) := by
  refine ⟨rfl, ?_, ?_, ?_⟩
  · rw [recalcDayNumbers_eq_map]
    exact List.length_map _ _
  · intro i
    rw [recalcDayNumbers_eq_map, List.getElem?_map]
    cases l[i]? <;> rfl
  · intro s hs t ht hst
    rw [recalcDayNumbers_eq_map] at hs ht
    obtain ⟨s0, hs0, rfl⟩ := List.mem_map.mp hs
    obtain ⟨t0, ht0, rfl⟩ := List.mem_map.mp ht
    show (distinctSortedDates l).indexOf s0.entry_date =
      (distinctSortedDates l).indexOf t0.entry_date
    have he : s0.entry_date = t0.entry_date := hst
    rw [he]

/-! ### The session upsert -/

/-- C9: a call with an empty subject or non-positive hours returns right
after the alert: the store (both tables) is untouched, the session state
is unchanged, and not a single remote call is issued. -/
theorem addSessionEntry_rejects_invalid (fi fu : Nat → Bool) (db : DBState)
    (ui : List StudySession) (selectedDate : Nat) (subject : String) (hours : Rat)
    (topic : String) (h : subject = "" ∨ hours ≤ 0) :
    addSessionEntry fi fu db ui selectedDate subject hours topic =
      { db := db, sessions := ui, ops := [] } := by
  unfold addSessionEntry
  rw [if_pos h]

theorem updateSessionFields_countP (db : DBState) (i : Nat) (subject : String) (hours : Rat)
    (topic : String) (p : StudySession → Bool)
    (hp : ∀ r, p ({ r with subject := subject, hours := hours, topic := topic, updated_at := db.now }) = p r) :
    ((updateSessionFields db i subject hours topic).rows.countP p) = db.rows.countP p := by
  show ((db.rows.map _).countP p) = _
  rw [List.countP_map]
  apply List.countP_congr
  intro r _
  have hb : p (if r.id = i
      then ({ r with subject := subject, hours := hours, topic := topic, updated_at := db.now })
      else r) = p r := by
    by_cases h : r.id = i
    · rw [if_pos h]; exact hp r
    · rw [if_neg h]
  simp only [Function.comp_apply]
  rw [hb]

theorem updateSessionFields_mem (db : DBState) (i : Nat) (subject : String) (hours : Rat)
    (topic : String) {p : StudySession} (hp : p ∈ db.rows) (hpi : p.id = i) :
    { p with subject := subject, hours := hours, topic := topic, updated_at := db.now } ∈
      (updateSessionFields db i subject hours topic).rows := by
  show _ ∈ db.rows.map _
  refine List.mem_map.mpr ⟨p, hp, ?_⟩
  rw [if_pos hpi]

theorem insertRow_mem_new (db : DBState) (date day : Nat) (subject : String) (hours : Rat)
    (topic : String) :
    (⟨db.nextId, date, day, subject, hours, topic, db.now, db.now⟩ : StudySession) ∈
      (insertRow db date day subject hours topic).rows := by
  show _ ∈ db.rows ++ [_]
  exact List.mem_append_right _ (List.mem_singleton_self _)

theorem selectByDateRows_length (db : DBState) (d : Nat) :
    (selectByDateRows db d).length = db.rows.countP (fun r => r.entry_date == d) :=
  (List.countP_eq_length_filter _ _).symm

theorem addSessionEntry_db_convert (db : DBState) (ui : List StudySession) (selectedDate : Nat)
    (subject : String) (hours : Rat) (topic : String)
    (hval : ¬ (subject = "" ∨ hours ≤ 0)) {p : StudySession}
    (hfind : (selectByDateRows db selectedDate).find? (fun r => r.subject == REST_SUBJECT) = some p) :
    (addSessionEntry noFail noFail db ui selectedDate subject hours topic).db =
      (loadData noFail noFail (updateSessionFields db p.id subject hours topic)).db := by
  unfold addSessionEntry
  rw [if_neg hval]
  cases hrows : selectByDateRows db selectedDate with
  | nil => rw [hrows] at hfind; cases hfind
  | cons r0 rest =>
    rw [hrows] at hfind
    dsimp only
    rw [hfind]
    rfl

theorem addSessionEntry_db_insert (db : DBState) (ui : List StudySession) (selectedDate : Nat)
    (subject : String) (hours : Rat) (topic : String)
    (hval : ¬ (subject = "" ∨ hours ≤ 0))
    (hfind : (selectByDateRows db selectedDate).find? (fun r => r.subject == REST_SUBJECT) = none) :
    ∃ day : Nat,
      (addSessionEntry noFail noFail db ui selectedDate subject hours topic).db =
        (loadData noFail noFail (insertRow db selectedDate day subject hours topic)).db := by
  unfold addSessionEntry
  rw [if_neg hval]
  cases hrows : selectByDateRows db selectedDate with
  | nil =>
    exact ⟨getNextDayNumberForAppend ui, rfl⟩
  | cons r0 rest =>
    refine ⟨r0.day_number, ?_⟩
    rw [hrows] at hfind
    dsimp only
    rw [hfind]
    rfl

/-- C3: with valid input (non-empty subject, positive hours) and all
writes succeeding, adding a session for a date that has a placeholder row
converts that row in place — the row keeps its id and receives the new
subject, hours and topic — and the number of rows for that date is
unchanged; if no placeholder row exists for the date, a new row carrying
the fresh server id is inserted instead and the number of rows for the
date grows by one. -/
theorem addSessionEntry_upsert (db : DBState) (ui : List StudySession) (selectedDate : Nat)
    (subject : String) (hours : Rat) (topic : String)
    (hs : subject ≠ "") (hh : 0 < hours) :
    (∀ p, (selectByDateRows db selectedDate).find? (fun r => r.subject == REST_SUBJECT) = some p →
      ((addSessionEntry noFail noFail db ui selectedDate subject hours topic).db.rows.countP
          (fun r => r.entry_date == selectedDate) =
        db.rows.countP (fun r => r.entry_date == selectedDate) ∧
       ∃ r ∈ (addSessionEntry noFail noFail db ui selectedDate subject hours topic).db.rows,
         r.id = p.id ∧ r.entry_date = selectedDate ∧ r.subject = subject ∧
         r.hours = hours ∧ r.topic = topic)) ∧
    ((selectByDateRows db selectedDate).find? (fun r => r.subject == REST_SUBJECT) = none →
      ((addSessionEntry noFail noFail db ui selectedDate subject hours topic).db.rows.countP
          (fun r => r.entry_date == selectedDate) =
        db.rows.countP (fun r => r.entry_date == selectedDate) + 1 ∧
       ∃ r ∈ (addSessionEntry noFail noFail db ui selectedDate subject hours topic).db.rows,
         r.id = db.nextId ∧ r.entry_date = selectedDate ∧ r.subject = subject ∧
         r.hours = hours ∧ r.topic = topic)) := by
  have hval : ¬ (subject = "" ∨ hours ≤ 0) :=
    fun hc => hc.elim hs (fun hle => absurd hh (not_lt.mpr hle))
  constructor
  · intro p hfind
    have hpmem : p ∈ selectByDateRows db selectedDate := List.mem_of_find?_eq_some hfind
    have hpdb : p ∈ db.rows := (List.mem_filter.mp hpmem).1
    have hpd : p.entry_date = selectedDate := by
      simpa using (List.mem_filter.mp hpmem).2
    have hdb := addSessionEntry_db_convert db ui selectedDate subject hours topic hval hfind
    have hcount0 : db.rows.countP (fun r => r.entry_date == selectedDate) ≠ 0 := by
      rw [← selectByDateRows_length]
      intro hc
      rw [List.length_eq_zero.mp hc] at hpmem
      cases hpmem
    constructor
    · rw [hdb,
        loadData_countP_date _ _ _ _ (by
          rw [updateSessionFields_countP db p.id subject hours topic
            (fun r => r.entry_date == selectedDate) (fun r => rfl)]
          exact hcount0),
        updateSessionFields_countP db p.id subject hours topic
          (fun r => r.entry_date == selectedDate) (fun r => rfl)]
    · rw [hdb]
      obtain ⟨r, hr, hcore⟩ := loadData_rows_sub noFail noFail _ _
        (updateSessionFields_mem db p.id subject hours topic hpdb rfl)
      exact ⟨r, hr, hcore.1, hcore.2.1.trans hpd, hcore.2.2.1, hcore.2.2.2.1, hcore.2.2.2.2.1⟩
  · intro hfind
    obtain ⟨day, hdb⟩ := addSessionEntry_db_insert db ui selectedDate subject hours topic hval hfind
    have hins := insertRow_countP db selectedDate day subject hours topic
      (fun r => r.entry_date == selectedDate)
    rw [if_pos (by simp)] at hins
    constructor
    · rw [hdb, loadData_countP_date _ _ _ _ (by rw [hins]; exact Nat.succ_ne_zero _), hins]
    · rw [hdb]
      obtain ⟨r, hr, hcore⟩ := loadData_rows_sub noFail noFail _ _
        (insertRow_mem_new db selectedDate day subject hours topic)
      exact ⟨r, hr, hcore.1, hcore.2.1, hcore.2.2.1, hcore.2.2.2.1, hcore.2.2.2.2.1⟩

/-! ### The session deletion -/

theorem countP_split (p q : StudySession → Bool) (l : List StudySession) :
    l.countP p = l.countP (fun a => p a && q a) + l.countP (fun a => p a && !(q a)) := by
  induction l with
  | nil => rfl
  | cons a t ih =>
    rw [List.countP_cons, List.countP_cons, List.countP_cons, ih]
    cases hq : q a <;> cases hp : p a <;> simp [hp, hq] <;> omega

theorem countP_and_id : ∀ (l : List StudySession), (l.map (fun s => s.id)).Nodup →
    ∀ {x : StudySession}, x ∈ l → ∀ (p : StudySession → Bool), p x = true →
      l.countP (fun r => p r && (r.id == x.id)) = 1 := by
  intro l
  induction l with
  | nil => intro _ x hx; cases hx
  | cons a t ih =>
    intro hnd x hx p hpx
    obtain ⟨h1, h2⟩ := List.nodup_cons.mp (by rw [List.map_cons] at hnd; exact hnd)
    rw [List.countP_cons]
    rcases List.mem_cons.mp hx with h | h
    · subst h
      have h0 : t.countP (fun r => p r && (r.id == x.id)) = 0 :=
        List.countP_eq_zero.mpr (fun r hr hc => by
          have : (r.id == x.id) = true := (Bool.and_elim_right hc)
          exact h1 (by rw [← beq_iff_eq.mp this]; exact List.mem_map_of_mem _ hr))
      simp [h0, hpx]
    · have ha : (a.id == x.id) = false := by
        rw [beq_eq_false_iff_ne]
        intro hc
        exact h1 (by rw [hc]; exact List.mem_map_of_mem _ h)
      rw [ih h2 h p hpx]
      simp [ha]

theorem deleteSession_db_eq (fi fu : Nat → Bool) (db : DBState) (ui : List StudySession)
    (i : Nat) {found : StudySession} (hfind : db.rows.find? (fun r => r.id == i) = some found) :
    (deleteSession fi fu db ui i).db =
      (loadData fi fu (ensureRestAfterDelete fi (deleteRowById db i) found.entry_date)).db := by
  unfold deleteSession
  rw [hfind]

theorem deleteRowById_rows (db : DBState) (i : Nat) :
    (deleteRowById db i).rows = db.rows.filter (fun r => !(r.id == i)) := rfl

theorem remaining_after_delete (db : DBState) (i : Nat) (d : Nat) :
    selectByDateRows (deleteRowById db i) d =
      db.rows.filter (fun r => (r.entry_date == d) && !(r.id == i)) := by
  unfold selectByDateRows
  rw [deleteRowById_rows, List.filter_filter]

/-- C5: with all writes succeeding and distinct row ids, deleting the last
non-placeholder session of a date that is not the most recent date leaves
that date populated by placeholder rows only: their count is
`max 1 (k - 1)` where `k` was the row count of the date (so a single
placeholder is inserted when no row remained, and nothing is added when
placeholder rows remained), and when the deleted row was the date's only
row the surviving row is a fresh placeholder with the sentinel subject,
zero hours and empty topic. -/
theorem deleteSession_not_most_recent (db : DBState) (ui : List StudySession) (i : Nat)
    (found : StudySession)
    (hfind : db.rows.find? (fun r => r.id == i) = some found)
    (hnd : (db.rows.map (fun s => s.id)).Nodup)
    (hreal : found.subject ≠ REST_SUBJECT)
    (hlast : ∀ r ∈ db.rows, r.entry_date = found.entry_date → r.subject ≠ REST_SUBJECT → r.id = i)
    (hnotrecent : ∃ r0 ∈ db.rows, found.entry_date < r0.entry_date) :
    ((deleteSession noFail noFail db ui i).db.rows.countP
        (fun r => r.entry_date == found.entry_date) =
      max 1 ((db.rows.countP (fun r => r.entry_date == found.entry_date)) - 1)) ∧
    (∀ r ∈ (deleteSession noFail noFail db ui i).db.rows,
      r.entry_date = found.entry_date → r.subject = REST_SUBJECT) ∧
    (db.rows.filter (fun r => r.entry_date == found.entry_date) = [found] →
      ∃ r ∈ (deleteSession noFail noFail db ui i).db.rows,
        r.entry_date = found.entry_date ∧ r.subject = REST_SUBJECT ∧ r.hours = 0 ∧ r.topic = "") := by
  have hfmem : found ∈ db.rows := List.mem_of_find?_eq_some hfind
  have hfid : found.id = i := by
    have h := List.find?_some hfind
    simpa using h
  set d := found.entry_date with hd
  set k := db.rows.countP (fun r => r.entry_date == d) with hk
  -- the count of rows of date `d` surviving the delete
  have hsplit := countP_split (fun r => r.entry_date == d) (fun r => r.id == i) db.rows
  have hone : db.rows.countP (fun r => (r.entry_date == d) && (r.id == i)) = 1 := by
    have := countP_and_id db.rows hnd hfmem (fun r => r.entry_date == d) (by simp)
    rw [hfid] at this
    exact this
  have hrem : db.rows.countP (fun r => (r.entry_date == d) && !(r.id == i)) = k - 1 := by
    omega
  have hk1 : 1 ≤ k := by omega
  -- every surviving row of date `d` is a placeholder
  have hallrest : ∀ r ∈ (deleteRowById db i).rows, r.entry_date = d → r.subject = REST_SUBJECT := by
    intro r hr hrd
    rw [deleteRowById_rows] at hr
    obtain ⟨hrmem, hrp⟩ := List.mem_filter.mp hr
    by_contra hc
    have : r.id = i := hlast r hrmem hrd hc
    simp [this] at hrp
  have hremcount : (selectByDateRows (deleteRowById db i) d).length = k - 1 := by
    rw [remaining_after_delete, ← List.countP_eq_length_filter]
    exact hrem
  have hanyfalse : ((selectByDateRows (deleteRowById db i) d).any
      (fun r => !(r.subject == REST_SUBJECT))) = false := by
    rw [Bool.eq_false_iff]
    intro hc
    obtain ⟨r, hr, hrp⟩ := List.any_eq_true.mp hc
    obtain ⟨hrmem, hrd⟩ := List.mem_filter.mp hr
    have : r.subject = REST_SUBJECT := hallrest r hrmem (by simpa using hrd)
    simp [this] at hrp
  -- the store handed to the reload
  have hurest : ∀ r ∈ (ensureRestAfterDelete noFail (deleteRowById db i) d).rows,
      r.entry_date = d → r.subject = REST_SUBJECT := by
    unfold ensureRestAfterDelete
    dsimp only
    rw [hanyfalse]
    by_cases hemp : (selectByDateRows (deleteRowById db i) d).isEmpty
    · rw [if_neg (by simp), if_pos hemp]
      intro r hr hrd
      rcases List.mem_append.mp hr with h | h
      · exact hallrest r h hrd
      · rw [List.mem_singleton.mp h]
    · rw [if_neg (by simp), if_neg hemp]
      exact hallrest
  have hucount : (ensureRestAfterDelete noFail (deleteRowById db i) d).rows.countP
      (fun r => r.entry_date == d) = max 1 (k - 1) := by
    unfold ensureRestAfterDelete
    dsimp only
    rw [hanyfalse]
    have hc1 : (deleteRowById db i).rows.countP (fun r => r.entry_date == d) = k - 1 := by
      rw [deleteRowById_rows, List.countP_filter]
      exact hrem
    by_cases hemp : (selectByDateRows (deleteRowById db i) d).isEmpty
    · rw [if_neg (by simp), if_pos hemp]
      have hz : k - 1 = 0 := by
        rw [← hremcount]
        exact List.length_eq_zero.mpr (List.isEmpty_iff.mp hemp)
      rw [if_neg (by simp [noFail]), insertRow_countP, if_pos (by simp)]
      omega
    · rw [if_neg (by simp), if_neg hemp]
      have hz : k - 1 ≠ 0 := by
        intro hc
        rw [← hremcount] at hc
        exact hemp (by rw [List.isEmpty_iff]; exact List.length_eq_zero.mp hc)
      omega
  have hdbeq := deleteSession_db_eq noFail noFail db ui i hfind
  refine ⟨?_, ?_, ?_⟩
  · rw [hdbeq, loadData_countP_date _ _ _ _ (by rw [hucount]; omega), hucount]
  · intro r hr hrd
    rw [hdbeq] at hr
    rcases loadData_rows_all noFail noFail _ r hr with ⟨r0, hr0, hcore⟩ | hpl
    · exact (hcore.2.2.1).symm ▸ hurest r0 hr0 (by rw [← hcore.2.1]; exact hrd)
    · exact hpl.1
  · intro honly
    have hkone : k = 1 := by
      rw [hk, List.countP_eq_length_filter, honly]
      rfl
    have hemp : (selectByDateRows (deleteRowById db i) d).isEmpty := by
      rw [List.isEmpty_iff, ← List.length_eq_zero, hremcount, hkone]
    have hins : (⟨(deleteRowById db i).nextId, d, 0, REST_SUBJECT, 0, "",
        (deleteRowById db i).now, (deleteRowById db i).now⟩ : StudySession) ∈
        (ensureRestAfterDelete noFail (deleteRowById db i) d).rows := by
      unfold ensureRestAfterDelete
      dsimp only
      rw [hanyfalse, if_neg (by simp), if_pos hemp]
      exact insertRow_mem_new _ _ _ _ _ _
    rw [hdbeq]
    obtain ⟨r, hr, hcore⟩ := loadData_rows_sub noFail noFail _ _ hins
    exact ⟨r, hr, hcore.2.1, hcore.2.2.1, hcore.2.2.2.1, hcore.2.2.2.2.1⟩

/-- C4 (amended): deleting the only (and last real) session row of the
most recent date does not remove the date from the log: exactly as for any
other date, a placeholder row with the sentinel subject, zero hours and
empty topic is inserted for it, so after the reload the date still has
exactly one row and the date range is not trimmed. -/
theorem deleteSession_most_recent_keeps_placeholder (db : DBState) (ui : List StudySession)
    (i : Nat) (found : StudySession)
    (hfind : db.rows.find? (fun r => r.id == i) = some found)
    (hreal : found.subject ≠ REST_SUBJECT)
    (honly : db.rows.filter (fun r => r.entry_date == found.entry_date) = [found])
    (hmax : ∀ r ∈ db.rows, r.entry_date ≤ found.entry_date) :
    ((deleteSession noFail noFail db ui i).db.rows.countP
        (fun r => r.entry_date == found.entry_date) = 1) ∧
    (∃ r ∈ (deleteSession noFail noFail db ui i).db.rows,
      r.entry_date = found.entry_date ∧ r.subject = REST_SUBJECT ∧ r.hours = 0 ∧ r.topic = "") := by
  have hfid : found.id = i := by
    have h := List.find?_some hfind
    simpa using h
  set d := found.entry_date with hd
  have hremnil : selectByDateRows (deleteRowById db i) d = [] := by
    rw [remaining_after_delete]
    rw [List.filter_eq_nil_iff]
    intro r hr hc
    have hrd : (r.entry_date == d) = true := Bool.and_elim_left hc
    have hri : (!(r.id == i)) = true := Bool.and_elim_right hc
    have hrmem : r ∈ db.rows.filter (fun r => r.entry_date == d) := List.mem_filter.mpr ⟨hr, hrd⟩
    rw [honly, List.mem_singleton] at hrmem
    rw [hrmem, hfid] at hri
    simp at hri
  have hens : ensureRestAfterDelete noFail (deleteRowById db i) d =
      insertRow (deleteRowById db i) d 0 REST_SUBJECT 0 "" := by
    unfold ensureRestAfterDelete
    dsimp only
    rw [hremnil]
    rfl
  have hc0 : (deleteRowById db i).rows.countP (fun r => r.entry_date == d) = 0 := by
    have := List.countP_eq_length_filter (fun r => r.entry_date == d) (deleteRowById db i).rows
    rw [this]
    have : (deleteRowById db i).rows.filter (fun r => r.entry_date == d) = [] := hremnil
    rw [this]
    rfl
  have hdbeq := deleteSession_db_eq noFail noFail db ui i hfind
  have huc : (ensureRestAfterDelete noFail (deleteRowById db i) d).rows.countP
      (fun r => r.entry_date == d) = 1 := by
    rw [hens, insertRow_countP, hc0, if_pos (by simp)]
  refine ⟨?_, ?_⟩
  · rw [hdbeq, loadData_countP_date _ _ _ _ (by rw [huc]; omega), huc]
  · have hins : (⟨(deleteRowById db i).nextId, d, 0, REST_SUBJECT, 0, "",
        (deleteRowById db i).now, (deleteRowById db i).now⟩ : StudySession) ∈
        (ensureRestAfterDelete noFail (deleteRowById db i) d).rows := by
      rw [hens]
      exact insertRow_mem_new _ _ _ _ _ _
    rw [hdbeq]
    obtain ⟨r, hr, hcore⟩ := loadData_rows_sub noFail noFail _ _ hins
    exact ⟨r, hr, hcore.2.1, hcore.2.2.1, hcore.2.2.2.1, hcore.2.2.2.2.1⟩

/-! ### Error handling of the reload chain -/

/-- C7: the reload chain never stops at a failed background write: for
every combination of failing inserts and failing updates, the trace of a
load on a non-empty store is the full chain — one insert attempt per
missing date, the re-fetch, and one day-number update attempt per
reloaded row — so after any single failure every remaining insert and
every remaining update is still issued and the recomputation still runs. -/
theorem loadData_continues_past_failures (fi fu : Nat → Bool) (db : DBState)
    (hne : db.rows ≠ []) :
    ((loadData fi fu db).ops =
      RemoteOp.selectSessions :: RemoteOp.selectSubjects ::
        ((missingDates db).map (fun d => RemoteOp.insertSession d 0 REST_SUBJECT 0 "") ++
          RemoteOp.selectSessions ::
            ((loadData fi fu db).sessions.map
              (fun s => RemoteOp.updateDayNumber s.id s.day_number)))) ∧
    (∀ d ∈ missingDates db,
      RemoteOp.insertSession d 0 REST_SUBJECT 0 "" ∈ (loadData fi fu db).ops) ∧
    (∀ s ∈ (loadData fi fu db).sessions,
      RemoteOp.updateDayNumber s.id s.day_number ∈ (loadData fi fu db).ops) := by
  have hops := loadData_ops_of_ne fi fu db hne
  rw [insertMissing_ops, sync_ops] at hops
  have hsess := loadData_sessions_of_ne fi fu db hne
  refine ⟨?_, fun d hd => ?_, fun s hs => ?_⟩
  · rw [hops, hsess]
  · rw [hops]
    exact List.mem_cons_of_mem _ (List.mem_cons_of_mem _
      (List.mem_append_left _ (List.mem_map_of_mem _ hd)))
  · rw [hops]
    refine List.mem_cons_of_mem _ (List.mem_cons_of_mem _
      (List.mem_append_right _ (List.mem_cons_of_mem _ ?_)))
    rw [hsess] at hs
    exact List.mem_map_of_mem _ hs

/-! ### The per-subject summary -/

theorem any_key_iff (acc : List (String × Rat)) (x : String) :
    (acc.any (fun p => p.1 == x)) = true ↔ x ∈ acc.map Prod.fst := by
  rw [List.any_eq_true]
  constructor
  · rintro ⟨p, hp, hpx⟩
    exact (beq_iff_eq.mp hpx) ▸ List.mem_map_of_mem _ hp
  · intro hx
    obtain ⟨p, hp, hpe⟩ := List.mem_map.mp hx
    exact ⟨p, hp, by simp [hpe]⟩

theorem map_fst_update (acc : List (String × Rat)) (x : String) (f : Rat → Rat) :
    (acc.map (fun p => if p.1 == x then (p.1, f p.2) else p)).map Prod.fst = acc.map Prod.fst := by
  rw [List.map_map]
  apply List.map_congr_left
  intro p _
  by_cases hp : p.1 = x <;> simp [hp]

theorem addToTotals_keys (acc : List (String × Rat)) (s : StudySession) :
    (addToTotals acc s).map Prod.fst = acc.map Prod.fst := by
  unfold addToTotals
  by_cases h : (acc.any (fun p => p.1 == s.subject)) = true
  · rw [if_pos h]
    exact map_fst_update acc s.subject (fun v => v + s.hours)
  · rw [if_neg h]

theorem addToTotals_not_mem (acc : List (String × Rat)) (s : StudySession)
    (h : s.subject ∉ acc.map Prod.fst) : addToTotals acc s = acc := by
  unfold addToTotals
  rw [if_neg (fun hc => h ((any_key_iff acc s.subject).mp hc))]

theorem addToTotals_zero (acc : List (String × Rat)) (s : StudySession) (h : s.hours = 0) :
    addToTotals acc s = acc := by
  unfold addToTotals
  by_cases hc : (acc.any (fun p => p.1 == s.subject)) = true
  · rw [if_pos hc]
    have h2 : acc.map (fun p => if p.1 == s.subject then (p.1, p.2 + s.hours) else p) =
        acc.map id := by
      apply List.map_congr_left
      intro p _
      by_cases hp : (p.1 == s.subject) = true
      · rw [if_pos hp, h, add_zero]
        exact Prod.mk.eta
      · rw [if_neg hp]
        rfl
    rw [h2, List.map_id]
  · rw [if_neg hc]

theorem foldl_totals_managed (sessions : List StudySession) (acc : List (String × Rat)) :
    sessions.foldl addToTotals acc =
      (sessions.filter (fun s => decide (s.subject ∈ acc.map Prod.fst))).foldl addToTotals acc := by
  induction sessions generalizing acc with
  | nil => rfl
  | cons s ss ih =>
    rw [List.foldl_cons, List.filter_cons]
    by_cases hm : s.subject ∈ acc.map Prod.fst
    · rw [if_pos (by simpa using hm), List.foldl_cons]
      have h2 := ih (addToTotals acc s)
      rw [addToTotals_keys] at h2
      exact h2
    · rw [if_neg (by simpa using hm), addToTotals_not_mem acc s hm]
      exact ih acc

theorem foldl_totals_nonzero (sessions : List StudySession) (acc : List (String × Rat)) :
    sessions.foldl addToTotals acc =
      (sessions.filter (fun s => !(decide (s.hours = 0)))).foldl addToTotals acc := by
  induction sessions generalizing acc with
  | nil => rfl
  | cons s ss ih =>
    rw [List.foldl_cons, List.filter_cons]
    by_cases hz : s.hours = 0
    · rw [if_neg (by simp [hz]), addToTotals_zero acc s hz]
      exact ih acc
    · rw [if_pos (by simp [hz]), List.foldl_cons]
      exact ih (addToTotals acc s)

theorem map_snd_sum_update (t : List (String × Rat)) (x : String) (h : Rat)
    (hnd : (t.map Prod.fst).Nodup) (hm : x ∈ t.map Prod.fst) :
    ((t.map (fun p => if p.1 == x then (p.1, p.2 + h) else p)).map (fun p => p.2)).sum =
      ((t.map (fun p => p.2)).sum) + h := by
  induction t with
  | nil => cases hm
  | cons p t ih =>
    obtain ⟨h1, h2⟩ := List.nodup_cons.mp (by rw [List.map_cons] at hnd; exact hnd)
    by_cases hp : (p.1 == x) = true
    · have hx : p.1 = x := beq_iff_eq.mp hp
      have hnone : t.map (fun p => if p.1 == x then (p.1, p.2 + h) else p) = t.map id := by
        apply List.map_congr_left
        intro q hq
        have hqx : ¬ ((q.1 == x) = true) := fun hc =>
          h1 (by rw [hx, ← beq_iff_eq.mp hc]; exact List.mem_map_of_mem _ hq)
        rw [if_neg hqx]
        rfl
      rw [List.map_cons, if_pos hp, hnone, List.map_id, List.map_cons, List.sum_cons,
        List.map_cons, List.sum_cons]
      ring
    · have hm2 : x ∈ t.map Prod.fst := by
        rw [List.map_cons] at hm
        rcases List.mem_cons.mp hm with hcc | hcc
        · exact absurd (by rw [hcc]) (fun hb => hp (beq_iff_eq.mpr hb))
        · exact hcc
      rw [List.map_cons, if_neg hp, List.map_cons, List.sum_cons, ih h2 hm2,
        List.map_cons, List.sum_cons]
      ring

theorem addToTotals_sum (acc : List (String × Rat)) (s : StudySession)
    (hnd : (acc.map Prod.fst).Nodup) :
    ((addToTotals acc s).map (fun p => p.2)).sum =
      ((acc.map (fun p => p.2)).sum) +
        (if s.subject ∈ acc.map Prod.fst then s.hours else 0) := by
  unfold addToTotals
  by_cases hc : (acc.any (fun p => p.1 == s.subject)) = true
  · have hm := (any_key_iff acc s.subject).mp hc
    rw [if_pos hc, if_pos hm]
    exact map_snd_sum_update acc s.subject s.hours hnd hm
  · have hm : s.subject ∉ acc.map Prod.fst := fun hmm => hc ((any_key_iff acc s.subject).mpr hmm)
    rw [if_neg hc, if_neg hm, add_zero]

theorem foldl_totals_sum (sessions : List StudySession) (acc : List (String × Rat))
    (hnd : (acc.map Prod.fst).Nodup) :
    ((sessions.foldl addToTotals acc).map (fun p => p.2)).sum =
      ((acc.map (fun p => p.2)).sum) +
        ((sessions.filter (fun s => decide (s.subject ∈ acc.map Prod.fst))).map
          (fun s => s.hours)).sum := by
  induction sessions generalizing acc with
  | nil => simp
  | cons s ss ih =>
    rw [List.foldl_cons, List.filter_cons]
    have hkeys := addToTotals_keys acc s
    have hnd2 : ((addToTotals acc s).map Prod.fst).Nodup := by rw [hkeys]; exact hnd
    have hrec := ih (addToTotals acc s) hnd2
    rw [hkeys] at hrec
    by_cases hm : s.subject ∈ acc.map Prod.fst
    · rw [if_pos (by simpa using hm), hrec,
        addToTotals_sum acc s hnd, if_pos hm, List.map_cons, List.sum_cons]
      ring
    · rw [if_neg (by simpa using hm), hrec, addToTotals_sum acc s hnd, if_neg hm, add_zero]

theorem initStep_keys_mem (acc : List (String × Rat)) (sub : AppSubject) (k : String) :
    k ∈ (initStep acc sub).map Prod.fst ↔ k ∈ acc.map Prod.fst ∨ k = sub.name := by
  unfold initStep
  by_cases hc : (acc.any (fun p => p.1 == sub.name)) = true
  · rw [if_pos hc, map_fst_update acc sub.name (fun _ => 0)]
    constructor
    · exact Or.inl
    · rintro (h | h)
      · exact h
      · rw [h]
        exact (any_key_iff acc sub.name).mp hc
  · rw [if_neg hc, List.map_append]
    simp [List.mem_append]

theorem initStep_keys_nodup (acc : List (String × Rat)) (sub : AppSubject)
    (hnd : (acc.map Prod.fst).Nodup) : ((initStep acc sub).map Prod.fst).Nodup := by
  unfold initStep
  by_cases hc : (acc.any (fun p => p.1 == sub.name)) = true
  · rw [if_pos hc, map_fst_update acc sub.name (fun _ => 0)]
    exact hnd
  · rw [if_neg hc, List.map_append]
    rw [List.nodup_append]
    refine ⟨hnd, List.nodup_singleton _, ?_⟩
    intro b hb hb2
    have hbn : b = sub.name := by simpa using hb2
    rw [hbn] at hb
    exact hc ((any_key_iff acc sub.name).mpr hb)

theorem initStep_values (acc : List (String × Rat)) (sub : AppSubject)
    (hv : ∀ p ∈ acc, p.2 = 0) : ∀ p ∈ initStep acc sub, p.2 = 0 := by
  unfold initStep
  by_cases hc : (acc.any (fun p => p.1 == sub.name)) = true
  · rw [if_pos hc]
    intro p hp
    obtain ⟨q, hq, hqe⟩ := List.mem_map.mp hp
    by_cases hqq : (q.1 == sub.name) = true
    · rw [if_pos hqq] at hqe
      rw [← hqe]
    · rw [if_neg hqq] at hqe
      rw [← hqe]
      exact hv q hq
  · rw [if_neg hc]
    intro p hp
    rcases List.mem_append.mp hp with h | h
    · exact hv p h
    · rw [List.mem_singleton.mp h]

theorem initTotals_aux (subjects : List AppSubject) (acc : List (String × Rat)) :
    (∀ k, k ∈ (subjects.foldl initStep acc).map Prod.fst ↔
      k ∈ acc.map Prod.fst ∨ k ∈ subjects.map (fun a => a.name)) ∧
    ((acc.map Prod.fst).Nodup → ((subjects.foldl initStep acc).map Prod.fst).Nodup) ∧
    ((∀ p ∈ acc, p.2 = 0) → ∀ p ∈ subjects.foldl initStep acc, p.2 = 0) := by
  induction subjects generalizing acc with
  | nil => exact ⟨fun k => by simp, fun h => h, fun h => h⟩
  | cons sub subs ih =>
    rw [List.foldl_cons]
    obtain ⟨ihk, ihn, ihv⟩ := ih (initStep acc sub)
    refine ⟨fun k => ?_, fun hnd => ihn (initStep_keys_nodup acc sub hnd),
      fun hv => ihv (initStep_values acc sub hv)⟩
    rw [ihk k, initStep_keys_mem acc sub k, List.map_cons]
    constructor
    · rintro ((h | h) | h)
      · exact Or.inl h
      · exact Or.inr (by rw [h]; exact List.mem_cons_self _ _)
      · exact Or.inr (List.mem_cons_of_mem _ h)
    · rintro (h | h)
      · exact Or.inl (Or.inl h)
      · rcases List.mem_cons.mp h with h2 | h2
        · exact Or.inl (Or.inr h2)
        · exact Or.inr h2

theorem initTotals_keys_mem (subjects : List AppSubject) (k : String) :
    k ∈ (initTotals subjects).map Prod.fst ↔ k ∈ subjects.map (fun a => a.name) := by
  unfold initTotals
  rw [(initTotals_aux subjects []).1 k]
  simp

theorem initTotals_keys_nodup (subjects : List AppSubject) :
    ((initTotals subjects).map Prod.fst).Nodup :=
  (initTotals_aux subjects []).2.1 List.nodup_nil

theorem initTotals_sum (subjects : List AppSubject) :
    ((initTotals subjects).map (fun p => p.2)).sum = 0 := by
  apply List.sum_eq_zero
  intro x hx
  obtain ⟨p, hp, hpe⟩ := List.mem_map.mp hx
  rw [← hpe]
  exact (initTotals_aux subjects []).2.2 (fun q hq => by cases hq) p hp

/-- C10: `calculateSubjectTotals` counts a session only when its subject
is exactly a managed subject name: sessions with unmanaged or deleted
subjects change no total, zero-hour rows (in particular every
placeholder row) change no total either, and the displayed grand total —
the sum of the per-subject totals — equals the sum of hours over the
sessions with managed subjects only, not over all sessions. -/
theorem calculateSubjectTotals_spec (subjects : List AppSubject) (sessions : List StudySession) :
    (calculateSubjectTotals subjects sessions =
      calculateSubjectTotals subjects
        (sessions.filter (fun s => decide (s.subject ∈ subjects.map (fun a => a.name))))) ∧
    (calculateSubjectTotals subjects sessions =
      calculateSubjectTotals subjects (sessions.filter (fun s => !(decide (s.hours = 0))))) ∧
    (grandTotal subjects sessions =
      ((sessions.filter (fun s => decide (s.subject ∈ subjects.map (fun a => a.name)))).map
        (fun s => s.hours)).sum) := by
  have hfc : ∀ l : List StudySession,
      l.filter (fun s => decide (s.subject ∈ (initTotals subjects).map Prod.fst)) =
        l.filter (fun s => decide (s.subject ∈ subjects.map (fun a => a.name))) := by
    intro l
    apply List.filter_congr
    intro s _
    rw [decide_eq_decide]
    exact initTotals_keys_mem subjects s.subject
  refine ⟨?_, ?_, ?_⟩
  · unfold calculateSubjectTotals
    rw [foldl_totals_managed sessions (initTotals subjects), hfc]
  · unfold calculateSubjectTotals
    rw [foldl_totals_nonzero sessions (initTotals subjects)]
  · unfold grandTotal calculateSubjectTotals
    rw [foldl_totals_sum sessions (initTotals subjects) (initTotals_keys_nodup subjects),
      initTotals_sum, hfc, zero_add]

/-! ### Concrete stores for the examples -/

/-- Serial day number of 2024-01-01. -/
def jan1 : Nat := daysFromCivil 2024 1 1

/-- Serial day number of 2024-01-02. -/
def jan2 : Nat := daysFromCivil 2024 1 2

/-- Serial day number of 2024-01-03. -/
def jan3 : Nat := daysFromCivil 2024 1 3

/-- A store holding one real session for 2024-01-01 and one for
2024-01-03 and nothing else. -/
def dbGap : DBState :=
  { rows := [⟨1, jan1, 0, "Math", 2, "algebra", 0, 0⟩, ⟨2, jan3, 0, "Physics", 1, "", 0, 0⟩],
    subs := [], nextId := 3, now := 7 }

/-- A store whose most recent date 2024-01-02 holds exactly one real
session (row id 2); 2024-01-01 holds another real session (row id 1). -/
def dbLastDay : DBState :=
  { rows := [⟨1, jan1, 0, "Math", 2, "", 0, 0⟩, ⟨2, jan2, 1, "Physics", 1, "mechanics", 0, 0⟩],
    subs := [], nextId := 3, now := 9 }

/-- A store whose only row for 2024-01-01 is a placeholder. -/
def dbRest : DBState :=
  { rows := [⟨1, jan1, 0, REST_SUBJECT, 0, "", 0, 0⟩], subs := [], nextId := 2, now := 4 }

/-- C6: on the store holding sessions for exactly 2024-01-01 and
2024-01-03, a completed load inserts one placeholder row for 2024-01-02,
and the day indices assigned to the dates 2024-01-01, 2024-01-02 and
2024-01-03 are 0, 1 and 2 respectively, both in the store and in the
resulting session state. -/
theorem loadData_gap_example :
    (∀ r ∈ dbGap.rows, r.entry_date = jan1 ∨ r.entry_date = jan3) ∧
    ((loadData noFail noFail dbGap).db.rows.countP (fun r => r.entry_date == jan2) = 1) ∧
    (∀ r ∈ (loadData noFail noFail dbGap).db.rows, r.entry_date = jan2 →
      r.subject = REST_SUBJECT ∧ r.hours = 0 ∧ r.topic = "") ∧
    (∀ r ∈ (loadData noFail noFail dbGap).db.rows,
      (r.entry_date = jan1 → r.day_number = 0) ∧ (r.entry_date = jan2 → r.day_number = 1) ∧
        (r.entry_date = jan3 → r.day_number = 2)) ∧
    (∀ s ∈ (loadData noFail noFail dbGap).sessions,
      (s.entry_date = jan1 → s.day_number = 0) ∧ (s.entry_date = jan2 → s.day_number = 1) ∧
        (s.entry_date = jan3 → s.day_number = 2)) := by decide

/-- C4 counterexample: in `dbLastDay`, row id 2 is the only session — and
thus the last real session — of the most recent date 2024-01-02, yet after
`deleteSession` of that row the date still has exactly one row, a
placeholder, so the date's row is not removed entirely and the range is
not trimmed. -/
theorem deleteSession_most_recent_not_trimmed :
    ((⟨2, jan2, 1, "Physics", 1, "mechanics", 0, 0⟩ : StudySession) ∈ dbLastDay.rows) ∧
    (∀ r ∈ dbLastDay.rows, r.entry_date ≤ jan2) ∧
    (dbLastDay.rows.filter (fun r => r.entry_date == jan2) =
      [⟨2, jan2, 1, "Physics", 1, "mechanics", 0, 0⟩]) ∧
    ("Physics" ≠ REST_SUBJECT) ∧
    ¬ ((deleteSession noFail noFail dbLastDay [] 2).db.rows.countP
        (fun r => r.entry_date == jan2) = 0) ∧
    ((deleteSession noFail noFail dbLastDay [] 2).db.rows.countP
        (fun r => r.entry_date == jan2) = 1) ∧
    (∃ r ∈ (deleteSession noFail noFail dbLastDay [] 2).db.rows,
      r.entry_date = jan2 ∧ r.subject = REST_SUBJECT ∧ r.hours = 0 ∧ r.topic = "") := by decide

/-! ### Concrete instantiations of the general theorems -/

/-- Instance of `loadData_fills_date_range` at the store `dbGap`: the
hypothesis holds and the lacking date 2024-01-02 receives a placeholder
row. -/
theorem loadData_fills_date_range_witness :
    dbGap.rows ≠ [] ∧
    (∃ r ∈ (loadData noFail noFail dbGap).db.rows,
      r.entry_date = jan2 ∧ r.subject = REST_SUBJECT ∧ r.hours = 0 ∧ r.topic = "") :=
  ⟨by decide, (loadData_fills_date_range dbGap (by decide)).2.2.2.2 jan2
    (by decide) (by decide) (by decide)⟩

/-- Instance of `recalcDayNumbers_rank_and_writeback` on the rows of
`dbGap`: day number 1 is assigned to some session. -/
theorem recalcDayNumbers_rank_and_writeback_witness :
    ∃ s ∈ recalcDayNumbers dbGap.rows, s.day_number = 1 :=
  (recalcDayNumbers_rank_and_writeback dbGap.rows dbGap).2.1 1 (by decide)

/-- Instance of `addSessionEntry_upsert` at the store `dbRest`: adding a
Math session on 2024-01-01 converts the placeholder row in place. -/
theorem addSessionEntry_upsert_witness :
    ("Math" ≠ "") ∧ ((0 : Rat) < 2) ∧
    (((addSessionEntry noFail noFail dbRest [] jan1 "Math" 2 "trig").db.rows.countP
        (fun r => r.entry_date == jan1)) =
      dbRest.rows.countP (fun r => r.entry_date == jan1) ∧
     ∃ r ∈ (addSessionEntry noFail noFail dbRest [] jan1 "Math" 2 "trig").db.rows,
       r.id = 1 ∧ r.entry_date = jan1 ∧ r.subject = "Math" ∧ r.hours = 2 ∧ r.topic = "trig") :=
  ⟨by decide, by decide,
    (addSessionEntry_upsert dbRest [] jan1 "Math" 2 "trig" (by decide) (by decide)).1
      ⟨1, jan1, 0, REST_SUBJECT, 0, "", 0, 0⟩ (by decide)⟩

/-- Instance of `deleteSession_most_recent_keeps_placeholder` at
`dbLastDay`, deleting row id 2 of the most recent date 2024-01-02. -/
theorem deleteSession_most_recent_keeps_placeholder_witness :
    ((deleteSession noFail noFail dbLastDay [] 2).db.rows.countP
        (fun r => r.entry_date == jan2) = 1) ∧
    (∃ r ∈ (deleteSession noFail noFail dbLastDay [] 2).db.rows,
      r.entry_date = jan2 ∧ r.subject = REST_SUBJECT ∧ r.hours = 0 ∧ r.topic = "") :=
  deleteSession_most_recent_keeps_placeholder dbLastDay [] 2
    ⟨2, jan2, 1, "Physics", 1, "mechanics", 0, 0⟩ (by decide) (by decide) (by decide) (by decide)

/-- Instance of `deleteSession_not_most_recent` at `dbLastDay`, deleting
row id 1 of the non-most-recent date 2024-01-01. -/
theorem deleteSession_not_most_recent_witness :
    ((deleteSession noFail noFail dbLastDay [] 1).db.rows.countP
        (fun r => r.entry_date == jan1) =
      max 1 ((dbLastDay.rows.countP (fun r => r.entry_date == jan1)) - 1)) ∧
    (∀ r ∈ (deleteSession noFail noFail dbLastDay [] 1).db.rows,
      r.entry_date = jan1 → r.subject = REST_SUBJECT) ∧
    (∃ r ∈ (deleteSession noFail noFail dbLastDay [] 1).db.rows,
      r.entry_date = jan1 ∧ r.subject = REST_SUBJECT ∧ r.hours = 0 ∧ r.topic = "") :=
  have h := deleteSession_not_most_recent dbLastDay [] 1 ⟨1, jan1, 0, "Math", 2, "", 0, 0⟩
    (by decide) (by decide) (by decide) (by decide) (by decide)
  ⟨h.1, h.2.1, h.2.2 (by decide)⟩

/-- Instance of `loadData_continues_past_failures` at `dbGap` with an
oracle that fails exactly the placeholder insert for 2024-01-02 and the
day-number update for row id 1: the insert attempt is still issued. -/
theorem loadData_continues_past_failures_witness :
    dbGap.rows ≠ [] ∧ jan2 ∈ missingDates dbGap ∧
    RemoteOp.insertSession jan2 0 REST_SUBJECT 0 "" ∈
      (loadData (fun d => d == jan2) (fun i => i == 1) dbGap).ops :=
  ⟨by decide, by decide,
    (loadData_continues_past_failures (fun d => d == jan2) (fun i => i == 1) dbGap
      (by decide)).2.1 jan2 (by decide)⟩

/-- Instance of `recalcDayNumbers_frame` on the rows of `dbGap`: the first
row keeps every column except `day_number`. -/
theorem recalcDayNumbers_frame_witness :
    ((recalcDayNumbers dbGap.rows)[0]?).map (fun s =>
        (s.id, s.entry_date, s.subject, s.hours, s.topic, s.created_at, s.updated_at)) =
      (dbGap.rows[0]?).map (fun s =>
        (s.id, s.entry_date, s.subject, s.hours, s.topic, s.created_at, s.updated_at)) :=
  (recalcDayNumbers_frame dbGap.rows).2.2.1 0

/-- Instance of `addSessionEntry_rejects_invalid`: an empty subject leaves
the store untouched and issues no remote call. -/
theorem addSessionEntry_rejects_invalid_witness :
    addSessionEntry noFail noFail dbGap [] jan1 "" 3 "notes" =
      { db := dbGap, sessions := [], ops := [] } :=
  addSessionEntry_rejects_invalid noFail noFail dbGap [] jan1 "" 3 "notes" (Or.inl rfl)

/-- One managed subject next to a session list holding a managed session,
an unmanaged one, and a placeholder row. -/
def subjectsEx : List AppSubject := [⟨1, "Math", 0⟩]

/-- Session list for the summary example. -/
def sessionsEx : List StudySession :=
  [⟨1, jan1, 0, "Math", 2, "algebra", 0, 0⟩,
   ⟨2, jan2, 1, "History", 4, "", 0, 0⟩,
   ⟨3, jan3, 2, REST_SUBJECT, 0, "", 0, 0⟩]

/-- Instance of `calculateSubjectTotals_spec` at the example lists: the
grand total is the sum over the managed sessions only. -/
theorem calculateSubjectTotals_spec_witness :
    grandTotal subjectsEx sessionsEx =
      ((sessionsEx.filter (fun s => decide (s.subject ∈ subjectsEx.map (fun a => a.name)))).map
        (fun s => s.hours)).sum :=
  (calculateSubjectTotals_spec subjectsEx sessionsEx).2.2

end StudyLogSpec
